import Mathlib

/-!
Shallow embedding of the TwinSync Spot add-on (twin-sync-addon) relevant to
the pattern engine (`app/core/memory.py`), the data model
(`app/core/models.py`), the SQLite lifecycle layer
(`twinsync_spot/app/db/sqlite.py`), the API routes
(`twinsync_spot/app/api/routes.py`) and the analyzer response validation
(`twinsync_spot/app/core/analyzer.py`).

Time is embedded as minutes since an epoch whose day 0 is a Monday:
for a timestamp `t : Nat`, the calendar day is `t / 1440`, the hour is
`t % 1440 / 60` and the weekday index is `t / 1440 % 7` (0 = Monday),
mirroring Python's `datetime.date()`, `.hour` and `.strftime("%A")`.
ISO date strings compare lexicographically exactly as day numbers compare
numerically, so dictionary keys `date.isoformat()` are embedded as integer
day numbers.
-/

namespace TwinSync

/-- `SpotStatus` from `app/core/models.py` (the enum's `.value` strings are
"sorted", "needs_attention", "unknown", "checking", "error"). -/
inductive SpotStatus where
  | sorted
  | needs_attention
  | unknown
  | checking
  | error
  deriving DecidableEq, Repr

/-- `ToSortItem` from `app/core/models.py`. -/
structure ToSortItem where
  item : String
  location : Option String := none
  recurring : Bool := false
  recurringCount : Nat := 0
  deriving DecidableEq, Repr

/-- `CheckResult` from `app/core/models.py`, restricted to the fields the
memory engine reads (`spot_id`, `timestamp`, `status`, `to_sort`); the note
and error fields are never consulted by `MemoryEngine`. -/
structure CheckResult where
  id : Nat
  spot_id : Nat
  timestamp : Nat
  status : SpotStatus
  to_sort : List ToSortItem := []
  deriving DecidableEq, Repr

/-- Calendar day of a check (`check.timestamp.date()`), as an integer day
number. -/
def checkDay (c : CheckResult) : Int := (c.timestamp / 1440 : Nat)

/-- Hour of day of a check (`check.timestamp.hour`). -/
def checkHour (c : CheckResult) : Nat := c.timestamp % 1440 / 60

/-- Weekday index of a check, 0 = Monday (`timestamp.strftime("%A")`
up to the name table below). -/
def checkWeekday (c : CheckResult) : Nat := c.timestamp / 1440 % 7

/-- The weekday names in the fixed Monday-first order used by the
`day_counts` dictionaries in `_find_worst_day` / `_find_best_day`. -/
def weekdayNames : List String :=
  ["Monday", "Tuesday", "Wednesday", "Thursday", "Friday", "Saturday", "Sunday"]

/-- Weekday name of a check (`check.timestamp.strftime("%A")`). -/
def checkWeekdayName (c : CheckResult) : String :=
  weekdayNames.getD (checkWeekday c) "Monday"

/-- `MEMORY_RETENTION_DAYS` from `app/core/memory.py`. -/
def MEMORY_RETENTION_DAYS : Nat := 30

/-- `RECURRING_THRESHOLD` from `app/core/memory.py`. -/
def RECURRING_THRESHOLD : Nat := 3

/-- Python `s.strip()`: drop whitespace from both ends (computed on the
character list so that proofs can evaluate it). -/
def pyStrip (s : String) : String :=
  String.mk (((s.data.dropWhile Char.isWhitespace).reverse.dropWhile
    Char.isWhitespace).reverse)

/-- Python `s.lower()` (per-character case folding). -/
def pyLower (s : String) : String := String.mk (s.data.map Char.toLower)

/-- Python `item.lower().strip()`. -/
def pyNormalize (s : String) : String := pyStrip (pyLower s)

/-- One step of `collections.Counter` accumulation: bump the count of `k`,
keeping the first-insertion position of each key (Python dicts preserve
insertion order; `Counter` ties in `most_common` are broken by it). -/
def counterAdd {κ : Type} [DecidableEq κ] :
    List (κ × Nat) → κ → List (κ × Nat)
  | [], k => [(k, 1)]
  | (k', n) :: t, k =>
    if k' = k then (k', n + 1) :: t else (k', n) :: counterAdd t k

/-- Build a `Counter` from a list of keys, in order. -/
def counterOf {κ : Type} [DecidableEq κ] (ks : List κ) : List (κ × Nat) :=
  ks.foldl counterAdd []

/-- Insert into a list kept in descending order of count, after all entries
with a greater-or-equal count (stable descending insertion, matching the
stability of Python's `sorted(..., reverse=True)` / `heapq.nlargest` used by
`Counter.most_common`). -/
def insertDesc {κ : Type} (p : κ × Nat) : List (κ × Nat) → List (κ × Nat)
  | [] => [p]
  | q :: t => if p.2 ≤ q.2 then q :: insertDesc p t else p :: q :: t

/-- Stable sort by count, descending. -/
def sortDesc {κ : Type} (l : List (κ × Nat)) : List (κ × Nat) :=
  l.foldl (fun acc p => insertDesc p acc) []

/-- `Counter.most_common(n)`: the `n` largest counts, stable in insertion
order among ties. -/
def mostCommon {κ : Type} (n : Nat) (l : List (κ × Nat)) : List (κ × Nat) :=
  (sortDesc l).take n

/-- The normalized item names of all `to_sort` entries of all checks, in
order (the iteration order of `_count_recurring_items`). -/
def allItemNames (checks : List CheckResult) : List String :=
  checks.flatMap fun c => c.to_sort.map fun it => pyNormalize it.item

/-- `MemoryEngine._count_recurring_items`: count normalized item
occurrences, then keep the entries of `most_common(20)` whose count is at
least `RECURRING_THRESHOLD`, in `most_common` order. -/
def countRecurringItems (checks : List CheckResult) : List (String × Nat) :=
  (mostCommon 20 (counterOf (allItemNames checks))).filter
    fun p => RECURRING_THRESHOLD ≤ p.2

/-- Association-list lookup (Python `dict` read / `in`). -/
def lookupA {κ ν : Type} [DecidableEq κ] : List (κ × ν) → κ → Option ν
  | [], _ => none
  | (k', v) :: t, k => if k' = k then some v else lookupA t k

/-- Bump the weekday bucket of a `day_counts` dictionary at a key
(the key is always present: it is one of the seven weekday names). -/
def bumpDay : List (String × Nat) → String → List (String × Nat)
  | [], _ => []
  | (k', n) :: t, k =>
    if k' = k then (k', n + 1) :: t else (k', n) :: bumpDay t k

/-- The zero-initialized `day_counts` dictionary of
`_find_worst_day` / `_find_best_day`, Monday first. -/
def zeroDayCounts : List (String × Nat) := weekdayNames.map fun n => (n, 0)

/-- The `day_counts` buckets after scanning `checks` for outcomes with
status `target`. -/
def dayCountsFor (target : SpotStatus) (checks : List CheckResult) :
    List (String × Nat) :=
  checks.foldl
    (fun acc c => if c.status = target then bumpDay acc (checkWeekdayName c) else acc)
    zeroDayCounts

/-- Python `max(iterable, key=...)` over (key, count) pairs: keeps the
current maximum and replaces it only on a strictly greater count, so the
first maximum in iteration order wins. -/
def pyMaxByCount (cur : String × Nat) : List (String × Nat) → String × Nat
  | [] => cur
  | p :: t => pyMaxByCount (if cur.2 < p.2 then p else cur) t

/-- Shared body of `_find_worst_day` / `_find_best_day`: `None` when every
bucket is zero, else `max(day_counts, key=day_counts.get)`. -/
def findDayFor (target : SpotStatus) (checks : List CheckResult) :
    Option String :=
  if (dayCountsFor target checks).all (fun p => p.2 = 0) then none
  else match dayCountsFor target checks with
    | [] => none
    | p :: t => some (pyMaxByCount p t).1

/-- `MemoryEngine._find_worst_day`. -/
def findWorstDay (checks : List CheckResult) : Option String :=
  findDayFor .needs_attention checks

/-- `MemoryEngine._find_best_day`. -/
def findBestDay (checks : List CheckResult) : Option String :=
  findDayFor .sorted checks

/-- Format an hour as in `_find_usual_sorted_time`. -/
def formatHour (h : Nat) : String :=
  if h = 0 then "12:00 AM"
  else if h < 12 then s!"{h}:00 AM"
  else if h = 12 then "12:00 PM"
  else s!"{h - 12}:00 PM"

/-- `MemoryEngine._find_usual_sorted_time`: most common hour among `sorted`
checks (`Counter.most_common(1)`), formatted. -/
def findUsualSortedTime (checks : List CheckResult) : Option String :=
  let hours := counterOf ((checks.filter fun c => c.status = .sorted).map checkHour)
  match mostCommon 1 hours with
  | [] => none
  | (h, _) :: _ => some (formatHour h)

/-- Stable insertion by timestamp: a later list element with an equal
timestamp stays after earlier ones, matching Python's stable `sorted`. -/
def insertByTs (c : CheckResult) : List CheckResult → List CheckResult
  | [] => [c]
  | x :: t => if x.timestamp ≤ c.timestamp then x :: insertByTs c t else c :: x :: t

/-- `sorted(self.checks, key=lambda c: c.timestamp)` (stable). -/
def sortByTs (checks : List CheckResult) : List CheckResult :=
  checks.foldl (fun acc c => insertByTs c acc) []

/-- Overwrite-or-append on an association list: Python dict assignment
(`daily_status[date_str] = ...`), keeping the key's first position. -/
def setAssoc : List (Int × SpotStatus) → Int → SpotStatus → List (Int × SpotStatus)
  | [], k, v => [(k, v)]
  | (k', v') :: t, k, v =>
    if k' = k then (k', v) :: t else (k', v') :: setAssoc t k v

/-- The `daily_status` dictionary of `_calculate_current_streak` /
`_calculate_longest_streak`: last status of each day, after the stable sort
by timestamp. -/
def dailyStatus (checks : List CheckResult) : List (Int × SpotStatus) :=
  (sortByTs checks).foldl (fun acc c => setAssoc acc (checkDay c) c.status) []

/-- The back-to-front day walk of `_calculate_current_streak`: starting at
offset `i` from `today` with `fuel` days left (30 at the top call), skip
days without an entry, count `sorted` days, stop at the first recorded
non-`sorted` day. -/
def csGo (daily : List (Int × SpotStatus)) (today : Int) :
    Nat → Nat → Nat → Nat
  | _, 0, streak => streak
  | i, fuel + 1, streak =>
    match lookupA daily (today - i) with
    | none => csGo daily today (i + 1) fuel streak
    | some v =>
      if v = .sorted then csGo daily today (i + 1) fuel (streak + 1)
      else streak

/-- `MemoryEngine._calculate_current_streak`, with `today` (the day number
of `datetime.now().date()`) made explicit. -/
def currentStreak (today : Int) (checks : List CheckResult) : Nat :=
  if checks = [] then 0
  else csGo (dailyStatus checks) today 0 MEMORY_RETENTION_DAYS 0

/-- Ascending insertion into a sorted list of day keys. -/
def insertLE (k : Int) : List Int → List Int
  | [] => [k]
  | x :: t => if x ≤ k then x :: insertLE k t else k :: x :: t

/-- `sorted(daily_status.keys())` (ISO strings sort as day numbers). -/
def sortedKeys (daily : List (Int × SpotStatus)) : List Int :=
  (daily.map Prod.fst).foldl (fun acc k => insertLE k acc) []

/-- The run-counting loop of `_calculate_longest_streak` over the flags
"this recorded day's status is sorted", carrying `(current, longest)`. -/
def lsFold : List Bool → Nat → Nat → Nat
  | [], _, longest => longest
  | b :: t, current, longest =>
    if b then lsFold t (current + 1) (max longest (current + 1))
    else lsFold t 0 longest

/-- For each recorded day in ascending date order, whether its (last)
status is `sorted`. -/
def dailySortedFlags (checks : List CheckResult) : List Bool :=
  let daily := dailyStatus checks
  (sortedKeys daily).map fun d => lookupA daily d = some SpotStatus.sorted

/-- `MemoryEngine._calculate_longest_streak`. -/
def longestStreak (checks : List CheckResult) : Nat :=
  if checks = [] then 0 else lsFold (dailySortedFlags checks) 0 0

/-- `SpotMemory` from `app/core/models.py`. -/
structure SpotMemory where
  spot_id : Nat
  recurring_items : List (String × Nat) := []
  usually_sorted_by : Option String := none
  worst_day : Option String := none
  best_day : Option String := none
  total_checks : Nat := 0
  total_resets : Nat := 0
  current_streak : Nat := 0
  longest_streak : Nat := 0
  last_reset : Option Int := none
  deriving DecidableEq, Repr

/-- `MemoryEngine.calculate_patterns`, with the current day made explicit
(the Python code reads `datetime.now()` inside
`_calculate_current_streak`). -/
def calculatePatterns (today : Int) (checks : List CheckResult) : SpotMemory :=
  match checks with
  | [] => { spot_id := 0 }
  | c₀ :: _ =>
    { spot_id := c₀.spot_id
      recurring_items := countRecurringItems checks
      worst_day := findWorstDay checks
      best_day := findBestDay checks
      usually_sorted_by := findUsualSortedTime checks
      total_checks := checks.length
      current_streak := currentStreak today checks
      longest_streak := longestStreak checks }

/-- `SpotMemory.top_recurring`: stable descending sort by count, first 5. -/
def topRecurring (m : SpotMemory) : List (String × Nat) :=
  (sortDesc m.recurring_items).take 5

/-- A row of the `spots` table (`twinsync_spot/app/db/sqlite.py`),
restricted to the fields touched by check processing and manual resets.
`last_check` and `last_reset` hold timestamps (minutes / day numbers). -/
structure SpotRow where
  status : SpotStatus := .unknown
  current_streak : Nat := 0
  longest_streak : Nat := 0
  total_resets : Nat := 0
  last_check : Option Nat := none
  last_reset : Option Int := none
  deriving DecidableEq, Repr

/-- A freshly created spot (schema defaults: status `unknown`, streaks 0,
`total_resets` 0). -/
def initRow : SpotRow := {}

/-- `Database.record_reset` (`sqlite.py`). The `Spot` dataclass built by
`_row_to_spot` carries no `total_resets` attribute, so Python's
`hasattr(spot, 'total_resets')` is always `False` and the stored counter is
written as `0 + 1`, whatever its previous value. -/
def recordReset (now : Int) (row : SpotRow) : SpotRow :=
  let new_streak := row.current_streak + 1
  let longest := max row.longest_streak new_streak
  { row with
    status := .sorted
    current_streak := new_streak
    longest_streak := longest
    last_reset := some now
    total_resets := 0 + 1 }

/-- The spot-row effect of `check_spot` (`routes.py`) for an outcome with
status `st`: `save_check` updates `status` and `last_check`, then
`current_streak` is zeroed iff the outcome is `needs_attention`. -/
def checkUpdate (now : Nat) (st : SpotStatus) (row : SpotRow) : SpotRow :=
  let r := { row with status := st, last_check := some now }
  if st = .needs_attention then { r with current_streak := 0 } else r

/-- An operation of the lifecycle controller on a spot row. -/
inductive Op where
  | check (now : Nat) (st : SpotStatus)
  | reset (now : Int)
  deriving DecidableEq, Repr

/-- Apply one lifecycle operation. -/
def applyOp (row : SpotRow) : Op → SpotRow
  | .check now st => checkUpdate now st row
  | .reset now => recordReset now row

/-- The spot row after a sequence of lifecycle operations from a fresh
spot. -/
def runOps (ops : List Op) : SpotRow := ops.foldl applyOp initRow

/-- The lifecycle controller's `current_streak` after processing a check
history in order (each check contributing its `check_spot` streak update),
starting from a fresh spot. -/
def controllerStreak (checks : List CheckResult) : Nat :=
  (runOps (checks.map fun c => Op.check c.timestamp c.status)).current_streak

/-- `Database.get_spot_memory` (`sqlite.py`): run the pattern engine over
the checks of the last 30 days (`checks` stands for that already-filtered
list), stamp the spot id, and, when the spot row exists, overwrite both
streak fields with the row's counters. -/
def getSpotMemory (today : Int) (spot_id : Nat) (checks : List CheckResult)
    (spot : Option SpotRow) : SpotMemory :=
  let m := calculatePatterns today checks
  let m := { m with spot_id := spot_id }
  match spot with
  | some s =>
    { m with current_streak := s.current_streak, longest_streak := s.longest_streak }
  | none => m

/-! ### Analyzer response validation (`twinsync_spot/app/core/analyzer.py`) -/

/-- A JSON value, as produced by `json.loads` (object keys are unique). -/
inductive JVal where
  | null
  | bool (b : Bool)
  | num (n : Int)
  | str (s : String)
  | arr (l : List JVal)
  | obj (l : List (String × JVal))
  deriving Repr

mutual

/-- Python `repr` of a JSON value (used by `str()` on non-strings). -/
def pyRepr : JVal → String
  | .null => "None"
  | .bool true => "True"
  | .bool false => "False"
  | .num n => toString n
  | .str s => "\x27" ++ s ++ "\x27"
  | .arr l => "[" ++ String.intercalate ", " (pyReprList l) ++ "]"
  | .obj l => "\x7b" ++ String.intercalate ", " (pyReprObj l) ++ "\x7d"

/-- `repr` of the elements of a JSON array. -/
def pyReprList : List JVal → List String
  | [] => []
  | v :: t => pyRepr v :: pyReprList t

/-- `repr` of the entries of a JSON object. -/
def pyReprObj : List (String × JVal) → List String
  | [] => []
  | (k, v) :: t => ("\x27" ++ k ++ "\x27: " ++ pyRepr v) :: pyReprObj t

end

/-- Python `str()` of a JSON value. -/
def pyStr : JVal → String
  | .str s => s
  | v => pyRepr v

/-- Python truthiness of a JSON value. -/
def pyTruthy : JVal → Bool
  | .null => false
  | .bool b => b
  | .num n => n ≠ 0
  | .str s => s ≠ ""
  | .arr l => ¬l.isEmpty
  | .obj l => ¬l.isEmpty

/-- Python iteration over a JSON value: lists yield their elements, strings
their characters, dicts their keys; anything else raises `TypeError`. -/
def pyIter : JVal → Option (List JVal)
  | .arr l => some l
  | .str s => some (s.data.map fun c => .str (String.singleton c))
  | .obj l => some (l.map fun kv => .str kv.1)
  | _ => none

/-- `x or None` on the result of `dict.get(key)`: a missing or falsy value
becomes absent. -/
def pyOrNone (o : Option JVal) : Option JVal :=
  match o with
  | some v => if pyTruthy v then some v else none
  | none => none

/-- A normalized `to_sort` entry produced by `_validate_response`. -/
structure ValidatedItem where
  item : String
  location : Option String
  deriving DecidableEq, Repr

/-- The dictionary returned by `_validate_response`. The note fields keep
the raw (truthy) JSON values. -/
structure ValidatedResult where
  status : String
  to_sort : List ValidatedItem
  looking_good : List String
  notes_main : Option JVal := none
  notes_pattern : Option JVal := none
  notes_encouragement : Option JVal := none
  deriving Repr

/-- One `to_sort` entry of `_validate_response`. `item.pop("recurring")` is
dropped: it only mutates the input dict and does not affect the fields read
afterwards. `str(item.get("location", "")) or None` maps the empty string
to `None` and any other value (including `str(None) = "None"`) to itself. -/
def validateToSortEntry (it : JVal) : Option ValidatedItem :=
  match it with
  | .obj okv =>
    if pyTruthy ((lookupA okv "item").getD .null) then
      some
        { item := pyStrip (pyStr ((lookupA okv "item").getD .null))
          location :=
            let lstr := pyStr ((lookupA okv "location").getD (.str ""))
            if lstr = "" then none else some lstr }
    else none
  | .str s => if pyStrip s ≠ "" then some { item := pyStrip s, location := none } else none
  | _ => none

/-- One `looking_good` entry of `_validate_response`. -/
def validateLookingGoodEntry (it : JVal) : Option String :=
  match it with
  | .str s => if pyStrip s ≠ "" then some (pyStrip s) else none
  | .obj okv =>
    if pyTruthy ((lookupA okv "item").getD .null) then
      some (pyStrip (pyStr ((lookupA okv "item").getD .null)))
    else none
  | _ => none

/-- The status normalization of `_validate_response`:
`data.get("status", "needs_attention")` followed by membership in
`("sorted", "needs_attention")`, anything else replaced by
`"needs_attention"`. -/
def normStatus (o : Option JVal) : String :=
  match o with
  | some (.str "sorted") => "sorted"
  | some (.str "needs_attention") => "needs_attention"
  | _ => "needs_attention"

/-- `SpotAnalyzer._validate_response`. `Except.error` marks the points
where the Python code raises (`AttributeError` on a non-dict payload or
non-dict `notes`, `TypeError` iterating a non-iterable `to_sort` /
`looking_good`). -/
def validateResponse (data : JVal) : Except String ValidatedResult :=
  match data with
  | .obj kvs =>
    let status := normStatus (lookupA kvs "status")
    match pyIter ((lookupA kvs "to_sort").getD (.arr [])) with
    | none => .error "TypeError: to_sort is not iterable"
    | some toSortItems =>
      match pyIter ((lookupA kvs "looking_good").getD (.arr [])) with
      | none => .error "TypeError: looking_good is not iterable"
      | some lookingGoodItems =>
        match (lookupA kvs "notes").getD (.obj []) with
        | .obj nkv =>
          .ok
            { status := status
              to_sort := toSortItems.filterMap validateToSortEntry
              looking_good := lookingGoodItems.filterMap validateLookingGoodEntry
              notes_main := pyOrNone (lookupA nkv "main")
              notes_pattern := pyOrNone (lookupA nkv "pattern")
              notes_encouragement := pyOrNone (lookupA nkv "encouragement") }
        | _ => .error "AttributeError: notes has no attribute get"
  | _ => .error "AttributeError: data has no attribute get"

/-! ### Spec-side definitions, written from the spec's words for
comparison with the source embedding. -/

/-- The per-day statuses walking backward: entry `j` is the recorded status
of day `today - (i + j)` (`none` when that day has no outcome), for `fuel`
days. -/
def backList (daily : List (Int × SpotStatus)) (today : Int) :
    Nat → Nat → List (Option SpotStatus)
  | _, 0 => []
  | i, fuel + 1 => lookupA daily (today - i) :: backList daily today (i + 1) fuel

/-- Whether the backward walk continues past a day, per the code: missing
days are skipped, a recorded `sorted` day continues, any other recorded
status stops. -/
def walkKeep (o : Option SpotStatus) : Bool :=
  match o with
  | none => true
  | some v => v = .sorted

/-- Amended current-streak spec: over the per-day statuses of the last
`MEMORY_RETENTION_DAYS` days walking backward from `today`, the number of
recorded `sorted` days before the first recorded non-`sorted` day (days
with no outcome are skipped, not streak-breaking). -/
def specAmendedCurrent (today : Int) (checks : List CheckResult) : Nat :=
  ((backList (dailyStatus checks) today 0 MEMORY_RETENTION_DAYS).takeWhile
    walkKeep).countP (fun o => o = some SpotStatus.sorted)

/-- The claim's current-streak spec: the number of consecutive days,
walking backward from `today`, whose per-day status is `sorted`, stopping
at the first day that is non-`sorted` or has no recorded outcome (stated
over the same retention window). -/
def specClaimedCurrent (today : Int) (checks : List CheckResult) : Nat :=
  ((backList (dailyStatus checks) today 0 MEMORY_RETENTION_DAYS).takeWhile
    (fun o => o = some SpotStatus.sorted)).length

/-- The lengths of the maximal runs of `true` in a flag list (`cur` is the
length of the run in progress). -/
def runsAux : List Bool → Nat → List Nat
  | [], cur => [cur]
  | true :: t, cur => runsAux t (cur + 1)
  | false :: t, cur => cur :: runsAux t 0

/-- The length of the longest run of consecutive `true` flags. -/
def runsMax (l : List Bool) : Nat := (runsAux l 0).foldr max 0

/-- Calendar-day flags from the first recorded day to the last: `true` on
days whose recorded status is `sorted`, `false` on non-`sorted` and on
missing days. -/
def calendarFlags (checks : List CheckResult) : List Bool :=
  let daily := dailyStatus checks
  match sortedKeys daily with
  | [] => []
  | d₀ :: rest =>
    let dLast := rest.getLastD d₀
    (List.range ((dLast - d₀).toNat + 1)).map
      fun i => lookupA daily (d₀ + i) = some SpotStatus.sorted

/-- The claim's longest-streak spec: the longest run of consecutive
calendar days whose per-day status is `sorted`, a day with no recorded
outcome breaking the run. -/
def specClaimedLongest (checks : List CheckResult) : Nat :=
  runsMax (calendarFlags checks)

/-- How many times a normalized item name occurs across all outcomes. -/
def countOf (checks : List CheckResult) (name : String) : Nat :=
  (allItemNames checks).count name

/-- The number of outcomes with status `target` falling on weekday `n`. -/
def countWeekdayStatus (target : SpotStatus) (n : String)
    (checks : List CheckResult) : Nat :=
  (checks.filter fun c =>
    decide (c.status = target ∧ checkWeekdayName c = n)).length

/-! ### Concrete inputs for counterexamples and witnesses -/

/-- Build a check with an empty item list. -/
def mkCheck (id spotId ts : Nat) (st : SpotStatus) : CheckResult :=
  { id := id, spot_id := spotId, timestamp := ts, status := st }

/-- One sorted outcome on day 100 (C1, C6 inputs). -/
def csOneSorted : List CheckResult := [mkCheck 1 1 (100 * 1440) .sorted]

/-- A sorted outcome on day 99 and none on day 100 (C2 input). -/
def csGap : List CheckResult := [mkCheck 1 1 (99 * 1440) .sorted]

/-- Sorted outcomes on days 0 and 2, nothing on day 1 (C3 input). -/
def csTwoApart : List CheckResult :=
  [mkCheck 1 1 0 .sorted, mkCheck 2 1 (2 * 1440) .sorted]

/-- Twenty-one distinct item names. -/
def names21 : List String :=
  ["a", "b", "c", "d", "e", "f", "g", "h", "i", "j", "k",
   "l", "m", "n", "o", "p", "q", "r", "s", "t", "u"]

/-- One check whose `to_sort` holds each of the 21 names three times
(C5 input): every name reaches the recurring threshold. -/
def csManyItems : List CheckResult :=
  [{ id := 1, spot_id := 1, timestamp := 0, status := .needs_attention,
     to_sort := (names21 ++ names21 ++ names21).map fun s => { item := s } }]

/-- A schema-violating but well-shaped analyzer payload (C9 witness
input): non-string status, empty `main` note, one dict item and one string
item. -/
def payloadC9 : List (String × JVal) :=
  [("status", .num 5),
   ("to_sort", .arr [.obj [("item", .str " Mug "), ("location", .str "desk")]]),
   ("looking_good", .arr [.str " tidy shelf "]),
   ("notes", .obj [("main", .str ""), ("pattern", .str "often mugs")])]

/-- One check with fewer than 20 distinct normalized names, where
"coffee mug" occurs three times under different spellings (C5 witness
input, after the spec's own example). -/
def csFewItems : List CheckResult :=
  [{ id := 1, spot_id := 1, timestamp := 0, status := .needs_attention,
     to_sort := [" Coffee Mug ", "coffee MUG", "Coffee mug", "pen"].map
       fun s => { item := s } }]

/-- A spot row with one recorded reset and a 2-day streak (C4 input). -/
def rowC4 : SpotRow :=
  { status := .sorted, current_streak := 2, longest_streak := 2,
    total_resets := 1 }

/-- Checks on three weekdays for the C8 witness: two `needs_attention` on
Tuesday (day 1), one on Friday (day 4), one `sorted` on Monday (day 0). -/
def csWeekdays : List CheckResult :=
  [mkCheck 1 1 (1 * 1440) .needs_attention,
   mkCheck 2 1 (1 * 1440 + 60) .needs_attention,
   mkCheck 3 1 (4 * 1440) .needs_attention,
   mkCheck 4 1 0 .sorted]

end TwinSync

namespace TwinSync

/-! ### Theorems -/

/-- C10: for an existing spot, the summary built by `get_spot_memory`
carries `current_streak` and `longest_streak` copied from the spot row,
whatever the pattern engine recomputed from the checks. -/
theorem C10_memory_streaks_copied_from_row (today : Int) (sid : Nat)
    (checks : List CheckResult) (s : SpotRow) :
    (getSpotMemory today sid checks (some s)).current_streak = s.current_streak ∧
    (getSpotMemory today sid checks (some s)).longest_streak = s.longest_streak :=
  ⟨rfl, rfl⟩

theorem applyOp_streak_inv (row : SpotRow) (op : Op)
    (h : row.current_streak ≤ row.longest_streak) :
    (applyOp row op).current_streak ≤ (applyOp row op).longest_streak := by
  cases op with
  | check now st =>
    simp only [applyOp, checkUpdate]
    split
    · exact Nat.zero_le _
    · exact h
  | reset now =>
    simp only [applyOp, recordReset]
    exact le_max_right _ _

theorem foldl_streak_inv : ∀ (ops : List Op) (row : SpotRow),
    row.current_streak ≤ row.longest_streak →
    (ops.foldl applyOp row).current_streak ≤ (ops.foldl applyOp row).longest_streak := by
  intro ops
  induction ops with
  | nil => intro row h; simpa using h
  | cons op t ih =>
    intro row h
    simpa using ih (applyOp row op) (applyOp_streak_inv row op h)

/-- C7: in every spot-row state reachable from a fresh spot through check
processing and manual resets, `longest_streak` is at least
`current_streak`. -/
theorem C7_longest_ge_current (ops : List Op) :
    (runOps ops).current_streak ≤ (runOps ops).longest_streak :=
  foldl_streak_inv ops initRow (Nat.le_refl 0)

/-- C4: evaluating `record_reset` at a spot that already has one recorded
reset (stored `total_resets = 1`) and `current_streak = longest_streak = 2`.
The streak fields and status follow the claim (2 → 3, forced `sorted`),
but the stored `total_resets` is written as 1 again, not 2: the `Spot`
dataclass has no `total_resets` attribute, so the `hasattr` fallback always
restarts the counter from 0. -/
theorem C4_record_reset_at_failing_input :
    (recordReset 500 rowC4).current_streak = 3 ∧
    (recordReset 500 rowC4).longest_streak = 3 ∧
    (recordReset 500 rowC4).status = .sorted ∧
    (recordReset 500 rowC4).total_resets = 1 := by
  refine ⟨rfl, rfl, rfl, rfl⟩

/-- C6, counterexample: the same one-outcome history produces different
summaries when the pattern engine runs on day 100 and on day 131
(`current_streak` 1 vs 0): `calculate_patterns` reads the current date via
`datetime.now()`, so its output does not depend on the outcome sequence
alone. -/
theorem C6_counterexample :
    calculatePatterns 100 csOneSorted ≠ calculatePatterns 131 csOneSorted := by
  decide

/-- C6, amended: `calculate_patterns` is deterministic given the outcome
sequence and the current date: two runs on the same date over equal
histories return identical summaries; the result additionally depends on
the date (see the counterexample), not on the history alone. -/
theorem C6_amended (today : Int) (c₁ c₂ : List CheckResult) (h : c₁ = c₂) :
    calculatePatterns today c₁ = calculatePatterns today c₂ := by
  rw [h]

/-- C6, witness for the amended theorem. -/
theorem C6_amended_witness :
    calculatePatterns 0 csOneSorted = calculatePatterns 0 csOneSorted :=
  C6_amended 0 csOneSorted csOneSorted rfl

/-- C1, counterexample: after a single `sorted` outcome on day 100 the
lifecycle controller's `current_streak` is 0 (check processing never
increments it), while the pattern engine's recomputation over the same
per-day statuses gives 1. -/
theorem C1_counterexample :
    controllerStreak csOneSorted ≠ currentStreak 100 csOneSorted := by
  decide

theorem foldl_checks_current_zero :
    ∀ (cs : List CheckResult) (row : SpotRow), row.current_streak = 0 →
      ((cs.map fun c => Op.check c.timestamp c.status).foldl applyOp
        row).current_streak = 0 := by
  intro cs
  induction cs with
  | nil => intro row h; simpa using h
  | cons c t ih =>
    intro row h
    simp only [List.map_cons, List.foldl_cons]
    apply ih
    simp only [applyOp, checkUpdate]
    split
    · rfl
    · exact h

/-- C1, amended: the lifecycle controller's `current_streak` after
processing an outcome history in order from a fresh location is always 0
(outcomes only reset it; only manual resets increment it), so it equals
the pattern engine's independently recomputed streak exactly when that
recomputed streak is 0. -/
theorem C1_amended (today : Int) (checks : List CheckResult) :
    controllerStreak checks = 0 ∧
    (controllerStreak checks = currentStreak today checks ↔
      currentStreak today checks = 0) := by
  have h0 : controllerStreak checks = 0 :=
    foldl_checks_current_zero checks initRow rfl
  refine ⟨h0, ?_⟩
  rw [h0]
  exact eq_comm

/-- C2, counterexample: with one `sorted` outcome on day 99 and no outcome
on day 100, the code's current streak computed on day 100 is 1 (the
missing day is skipped), while the claim's walk (stopping at the first
missing day) gives 0. -/
theorem C2_counterexample :
    currentStreak 100 csGap ≠ specClaimedCurrent 100 csGap := by
  decide

theorem csGo_eq_spec :
    ∀ (fuel i streak : Nat) (daily : List (Int × SpotStatus)) (today : Int),
      csGo daily today i fuel streak =
        streak + ((backList daily today i fuel).takeWhile walkKeep).countP
          (fun o => o = some SpotStatus.sorted) := by
  intro fuel
  induction fuel with
  | zero => intros; simp [csGo, backList]
  | succ f ih =>
    intro i streak daily today
    simp only [csGo, backList]
    cases hl : lookupA daily (today - i) with
    | none =>
      dsimp only
      rw [ih]
      simp [walkKeep, List.takeWhile_cons, List.countP_cons]
    | some v =>
      dsimp only
      by_cases hv : v = SpotStatus.sorted
      · subst hv
        rw [if_pos rfl, ih]
        simp only [walkKeep, List.takeWhile_cons, List.countP_cons]
        simp
        omega
      · rw [if_neg hv]
        simp [walkKeep, List.takeWhile_cons, hv]

theorem csGo_empty :
    ∀ (fuel i streak : Nat) (today : Int),
      csGo [] today i fuel streak = streak := by
  intro fuel
  induction fuel with
  | zero => intros; rfl
  | succ f ih =>
    intro i streak today
    simp only [csGo, lookupA]
    exact ih (i + 1) streak today

/-- C2, amended: the pattern engine's current streak equals, over the
per-day statuses of the last 30 days walking backward from today, the
number of recorded `sorted` days occurring before the first recorded
non-`sorted` day; a day with no recorded outcome is skipped (it neither
counts nor stops the walk). -/
theorem C2_amended (today : Int) (checks : List CheckResult) :
    currentStreak today checks = specAmendedCurrent today checks := by
  by_cases h : checks = []
  · subst h
    have h1 := csGo_eq_spec MEMORY_RETENTION_DAYS 0 0 [] today
    rw [csGo_empty] at h1
    rw [currentStreak, if_pos rfl, specAmendedCurrent]
    have hd : dailyStatus ([] : List CheckResult) = [] := rfl
    rw [hd]
    omega
  · rw [currentStreak, if_neg h, specAmendedCurrent, csGo_eq_spec]
    exact Nat.zero_add _

theorem le_runsAux_foldr : ∀ (l : List Bool) (cur : Nat),
    cur ≤ (runsAux l cur).foldr max 0 := by
  intro l
  induction l with
  | nil => intro cur; simp [runsAux]
  | cons b t ih =>
    intro cur
    cases b with
    | false =>
      simp only [runsAux, List.foldr_cons]
      exact le_max_left _ _
    | true =>
      simp only [runsAux]
      have := ih (cur + 1)
      omega

theorem lsFold_eq_runs : ∀ (l : List Bool) (cur best : Nat), cur ≤ best →
    lsFold l cur best = max best ((runsAux l cur).foldr max 0) := by
  intro l
  induction l with
  | nil =>
    intro cur best h
    simp only [lsFold, runsAux, List.foldr_cons, List.foldr_nil]
    rw [Nat.max_zero, Nat.max_eq_left h]
  | cons b t ih =>
    intro cur best h
    cases b with
    | false =>
      simp only [lsFold, runsAux, List.foldr_cons, Bool.false_eq_true,
        if_false]
      rw [ih 0 best (Nat.zero_le best), ← Nat.max_assoc, Nat.max_eq_left h]
    | true =>
      simp only [lsFold, runsAux, if_pos rfl]
      rw [ih (cur + 1) (max best (cur + 1)) (le_max_right _ _),
        Nat.max_assoc, Nat.max_eq_right (le_runsAux_foldr t (cur + 1))]
      simp

theorem lookupA_counterAdd {κ : Type} [DecidableEq κ] :
    ∀ (l : List (κ × Nat)) (a k : κ),
      (lookupA (counterAdd l a) k).getD 0 =
        (lookupA l k).getD 0 + if a = k then 1 else 0 := by
  intro l
  induction l with
  | nil =>
    intro a k
    by_cases h : a = k
    · subst h; simp [counterAdd, lookupA]
    · simp [counterAdd, lookupA, h]
  | cons p t ih =>
    intro a k
    obtain ⟨b, n⟩ := p
    by_cases hba : b = a
    · subst hba
      simp only [counterAdd, if_pos rfl]
      by_cases hbk : b = k
      · subst hbk; simp [lookupA]
      · simp [lookupA, hbk]
    · simp only [counterAdd, if_neg hba]
      by_cases hbk : b = k
      · subst hbk
        have hak : ¬a = b := fun h => hba h.symm
        simp [lookupA, hak]
      · simp only [lookupA, if_neg hbk]
        exact ih a k

theorem lookupA_counterFold {κ : Type} [DecidableEq κ] :
    ∀ (ks : List κ) (acc : List (κ × Nat)) (k : κ),
      (lookupA (ks.foldl counterAdd acc) k).getD 0 =
        (lookupA acc k).getD 0 + ks.count k := by
  intro ks
  induction ks with
  | nil => intros; simp
  | cons a t ih =>
    intro acc k
    simp only [List.foldl_cons]
    rw [ih (counterAdd acc a) k, lookupA_counterAdd, List.count_cons]
    by_cases h : a = k
    · simp [h]; omega
    · simp [h, Ne.symm h]

theorem lookupA_counterOf {κ : Type} [DecidableEq κ] (ks : List κ) (k : κ) :
    (lookupA (counterOf ks) k).getD 0 = ks.count k := by
  have h := lookupA_counterFold ks [] k
  simpa [counterOf, lookupA] using h

theorem counterAdd_keys {κ : Type} [DecidableEq κ] :
    ∀ (l : List (κ × Nat)) (a : κ),
      (counterAdd l a).map Prod.fst =
        if a ∈ l.map Prod.fst then l.map Prod.fst
        else l.map Prod.fst ++ [a] := by
  intro l
  induction l with
  | nil => intro a; simp [counterAdd]
  | cons p t ih =>
    intro a
    obtain ⟨b, n⟩ := p
    by_cases h : b = a
    · subst h; simp [counterAdd]
    · have hab : ¬a = b := fun heq => h heq.symm
      simp only [counterAdd, if_neg h, List.map_cons]
      rw [ih a]
      by_cases hm : a ∈ t.map Prod.fst
      · simp [hm, hab]
      · simp [hm, hab]

theorem counterAdd_nodupKeys {κ : Type} [DecidableEq κ]
    (l : List (κ × Nat)) (a : κ) (h : (l.map Prod.fst).Nodup) :
    ((counterAdd l a).map Prod.fst).Nodup := by
  rw [counterAdd_keys]
  split
  · exact h
  · next hm =>
    exact h.append (List.nodup_singleton a) (by simpa using hm)

theorem counterFold_nodupKeys {κ : Type} [DecidableEq κ] :
    ∀ (ks : List κ) (acc : List (κ × Nat)), (acc.map Prod.fst).Nodup →
      ((ks.foldl counterAdd acc).map Prod.fst).Nodup := by
  intro ks
  induction ks with
  | nil => intro acc h; simpa using h
  | cons a t ih =>
    intro acc h
    simpa using ih (counterAdd acc a) (counterAdd_nodupKeys acc a h)

theorem counterOf_nodupKeys {κ : Type} [DecidableEq κ] (ks : List κ) :
    ((counterOf ks).map Prod.fst).Nodup :=
  counterFold_nodupKeys ks [] (by simp)

theorem lookupA_of_mem {κ ν : Type} [DecidableEq κ] :
    ∀ (l : List (κ × ν)) (p : κ × ν), (l.map Prod.fst).Nodup → p ∈ l →
      lookupA l p.1 = some p.2 := by
  intro l
  induction l with
  | nil => intro p _ hp; cases hp
  | cons q t ih =>
    intro p hnd hp
    obtain ⟨b, v⟩ := q
    rw [List.map_cons, List.nodup_cons] at hnd
    rcases List.mem_cons.mp hp with heq | hmem
    · subst heq; simp [lookupA]
    · have hb : ¬b = p.1 := by
        intro h
        subst h
        exact hnd.1 (List.mem_map.mpr ⟨p, hmem, rfl⟩)
      simp only [lookupA, if_neg hb]
      exact ih p hnd.2 hmem

theorem mem_counterOf_count {κ : Type} [DecidableEq κ] (ks : List κ)
    (p : κ × Nat) (hp : p ∈ counterOf ks) : p.2 = ks.count p.1 := by
  have h1 := lookupA_of_mem (counterOf ks) p (counterOf_nodupKeys ks) hp
  have h2 := lookupA_counterOf ks p.1
  rw [h1] at h2
  simpa using h2

theorem mem_keys_counterFold {κ : Type} [DecidableEq κ] :
    ∀ (ks : List κ) (acc : List (κ × Nat)) (s : κ),
      s ∈ ks ∨ s ∈ acc.map Prod.fst →
      s ∈ (ks.foldl counterAdd acc).map Prod.fst := by
  intro ks
  induction ks with
  | nil =>
    intro acc s h
    rcases h with h | h
    · cases h
    · simpa using h
  | cons a t ih =>
    intro acc s h
    simp only [List.foldl_cons]
    apply ih
    have hsub : acc.map Prod.fst ⊆ (counterAdd acc a).map Prod.fst := by
      intro x hx
      rw [counterAdd_keys]
      split
      · exact hx
      · exact List.mem_append_left _ hx
    rcases h with h | h
    · rcases List.mem_cons.mp h with rfl | h
      · right
        rw [counterAdd_keys]
        split
        · next hmem => exact hmem
        · exact List.mem_append_right _ (List.mem_singleton.mpr rfl)
      · exact Or.inl h
    · exact Or.inr (hsub h)

theorem lookupA_isSome_of_mem_keys {κ ν : Type} [DecidableEq κ] :
    ∀ (l : List (κ × ν)) (s : κ), s ∈ l.map Prod.fst →
      ∃ v, lookupA l s = some v := by
  intro l
  induction l with
  | nil => intro s h; simp at h
  | cons p t ih =>
    intro s h
    obtain ⟨b, v⟩ := p
    by_cases hb : b = s
    · exact ⟨v, by simp [lookupA, hb]⟩
    · simp only [lookupA, if_neg hb]
      apply ih
      rw [List.map_cons] at h
      rcases List.mem_cons.mp h with rfl | h1
      · exact absurd rfl hb
      · exact h1

theorem mem_of_lookupA {κ ν : Type} [DecidableEq κ] :
    ∀ (l : List (κ × ν)) (s : κ) (v : ν),
      lookupA l s = some v → (s, v) ∈ l := by
  intro l
  induction l with
  | nil => intro s v h; cases h
  | cons p t ih =>
    intro s v h
    obtain ⟨b, w⟩ := p
    by_cases hb : b = s
    · subst hb
      rw [lookupA, if_pos rfl] at h
      have hv := Option.some.inj h
      subst hv
      exact List.mem_cons_self _ _
    · rw [lookupA, if_neg hb] at h
      exact List.mem_cons_of_mem _ (ih s v h)

theorem counterOf_mem_of_mem {κ : Type} [DecidableEq κ] (ks : List κ)
    (s : κ) (h : s ∈ ks) : (s, ks.count s) ∈ counterOf ks := by
  have hk : s ∈ (counterOf ks).map Prod.fst :=
    mem_keys_counterFold ks [] s (Or.inl h)
  obtain ⟨v, hv⟩ := lookupA_isSome_of_mem_keys _ s hk
  have hc := lookupA_counterOf ks s
  rw [hv] at hc
  simp only [Option.getD_some] at hc
  exact mem_of_lookupA _ s _ (hc ▸ hv)

theorem insertDesc_perm {κ : Type} (p : κ × Nat) :
    ∀ l, (insertDesc p l).Perm (p :: l) := by
  intro l
  induction l with
  | nil => exact List.Perm.refl _
  | cons q t ih =>
    simp only [insertDesc]
    split
    · exact (ih.cons q).trans (List.Perm.swap p q t)
    · exact List.Perm.refl _

theorem sortDesc_perm_aux {κ : Type} :
    ∀ (l acc : List (κ × Nat)),
      (l.foldl (fun acc p => insertDesc p acc) acc).Perm (acc ++ l) := by
  intro l
  induction l with
  | nil => intro acc; simp
  | cons p t ih =>
    intro acc
    simp only [List.foldl_cons]
    refine (ih (insertDesc p acc)).trans ?_
    refine ((insertDesc_perm p acc).append_right t).trans ?_
    simpa using List.perm_middle.symm

theorem sortDesc_perm {κ : Type} (l : List (κ × Nat)) :
    (sortDesc l).Perm l := by
  simpa [sortDesc] using sortDesc_perm_aux l []

theorem insertDesc_pairwise {κ : Type} (p : κ × Nat) :
    ∀ (l : List (κ × Nat)), l.Pairwise (fun x y => y.2 ≤ x.2) →
      (insertDesc p l).Pairwise (fun x y => y.2 ≤ x.2) := by
  intro l
  induction l with
  | nil => intro _; simp [insertDesc]
  | cons q t ih =>
    intro hp
    rw [List.pairwise_cons] at hp
    obtain ⟨hq, ht⟩ := hp
    simp only [insertDesc]
    split
    · next hle =>
      rw [List.pairwise_cons]
      refine ⟨?_, ih ht⟩
      intro y hy
      rcases List.mem_cons.mp ((insertDesc_perm p t).mem_iff.mp hy) with hy | hy
      · subst hy; exact hle
      · exact hq y hy
    · next hgt =>
      rw [List.pairwise_cons]
      refine ⟨?_, List.pairwise_cons.mpr ⟨hq, ht⟩⟩
      intro y hy
      rcases List.mem_cons.mp hy with hy | hy
      · subst hy; omega
      · have := hq y hy; omega

theorem sortDesc_pairwise_aux {κ : Type} :
    ∀ (l acc : List (κ × Nat)), acc.Pairwise (fun x y => y.2 ≤ x.2) →
      (l.foldl (fun acc p => insertDesc p acc) acc).Pairwise
        (fun x y => y.2 ≤ x.2) := by
  intro l
  induction l with
  | nil => intro acc h; simpa using h
  | cons p t ih =>
    intro acc h
    simpa using ih (insertDesc p acc) (insertDesc_pairwise p acc h)

theorem sortDesc_pairwise {κ : Type} (l : List (κ × Nat)) :
    (sortDesc l).Pairwise (fun x y => y.2 ≤ x.2) :=
  sortDesc_pairwise_aux l [] (by simp)

theorem weekdayNames_nodup : weekdayNames.Nodup := by decide

theorem bumpDay_map (f : String → Nat) :
    ∀ (names : List String) (k : String), names.Nodup →
      bumpDay (names.map fun n => (n, f n)) k =
        names.map fun n => (n, if n = k then f n + 1 else f n) := by
  intro names
  induction names with
  | nil => intro k _; rfl
  | cons a t ih =>
    intro k hnd
    rw [List.nodup_cons] at hnd
    simp only [List.map_cons, bumpDay]
    by_cases h : a = k
    · subst h
      rw [if_pos rfl]
      simp only [if_pos rfl, List.cons.injEq, true_and]
      refine ⟨rfl, ?_⟩
      refine (List.map_congr_left ?_).symm
      intro n hn
      have hna : ¬n = a := by
        intro he; subst he; exact hnd.1 hn
      simp [hna]
    · rw [if_neg h]
      simp only [List.cons.injEq]
      refine ⟨by simp [h], ?_⟩
      exact ih k hnd.2

theorem dayCountsFor_fold (target : SpotStatus) :
    ∀ (cs : List CheckResult) (f : String → Nat),
      cs.foldl (fun acc c => if c.status = target
          then bumpDay acc (checkWeekdayName c) else acc)
        (weekdayNames.map fun n => (n, f n)) =
      weekdayNames.map fun n => (n, f n + countWeekdayStatus target n cs) := by
  intro cs
  induction cs with
  | nil =>
    intro f
    refine (List.map_congr_left ?_).symm
    intro n _
    simp [countWeekdayStatus]
  | cons c t ih =>
    intro f
    simp only [List.foldl_cons]
    by_cases hc : c.status = target
    · rw [if_pos hc,
        bumpDay_map f weekdayNames (checkWeekdayName c) weekdayNames_nodup,
        ih fun n => if n = checkWeekdayName c then f n + 1 else f n]
      apply List.map_congr_left
      intro n _
      have hcount : countWeekdayStatus target n (c :: t) =
          countWeekdayStatus target n t +
            (if n = checkWeekdayName c then 1 else 0) := by
        rw [countWeekdayStatus, countWeekdayStatus, List.filter_cons]
        by_cases hn2 : n = checkWeekdayName c
        · simp [hc, hn2]
        · have : ¬checkWeekdayName c = n := fun he => hn2 he.symm
          simp [hn2, this]
      rw [hcount]
      by_cases hn2 : n = checkWeekdayName c
      · subst hn2
        refine congrArg (Prod.mk (checkWeekdayName c)) ?_
        rw [if_pos rfl, if_pos rfl]
        omega
      · simp [hn2]
    · rw [if_neg hc, ih f]
      apply List.map_congr_left
      intro n _
      have : countWeekdayStatus target n (c :: t) =
          countWeekdayStatus target n t := by
        rw [countWeekdayStatus, countWeekdayStatus, List.filter_cons]
        simp [hc]
      rw [this]

theorem dayCountsFor_eq (target : SpotStatus) (cs : List CheckResult) :
    dayCountsFor target cs =
      weekdayNames.map fun n => (n, countWeekdayStatus target n cs) := by
  have h := dayCountsFor_fold target cs fun _ => 0
  simpa [dayCountsFor, zeroDayCounts] using h

theorem pyMaxByCount_decomp :
    ∀ (l : List (String × Nat)) (cur : String × Nat),
      ∃ l₁ l₂, cur :: l = l₁ ++ (pyMaxByCount cur l) :: l₂ ∧
        (∀ p ∈ l₁, p.2 < (pyMaxByCount cur l).2) ∧
        (∀ p ∈ l₂, p.2 ≤ (pyMaxByCount cur l).2) := by
  intro l
  induction l with
  | nil =>
    intro cur
    exact ⟨[], [], rfl, by simp, by simp⟩
  | cons x t ih =>
    intro cur
    by_cases hx : cur.2 < x.2
    · have hred : pyMaxByCount cur (x :: t) = pyMaxByCount x t := by
        simp [pyMaxByCount, hx]
      rw [hred]
      obtain ⟨l₁, l₂, hdec, hlt, hle⟩ := ih x
      rcases l₁ with _ | ⟨a, l₁'⟩
      · rw [List.nil_append] at hdec
        have h1 : x = pyMaxByCount x t := by injection hdec
        refine ⟨[cur], l₂, congrArg (List.cons cur) hdec, ?_, hle⟩
        intro p hp
        rcases List.mem_singleton.mp hp with rfl
        rw [← h1]; exact hx
      · rw [List.cons_append] at hdec
        have h1 : x = a := by injection hdec
        refine ⟨cur :: a :: l₁', l₂, congrArg (List.cons cur) hdec, ?_, hle⟩
        intro p hp
        rcases List.mem_cons.mp hp with rfl | hp
        · have ha : a.2 < (pyMaxByCount x t).2 := hlt a (by simp)
          rw [h1] at hx
          omega
        · rcases List.mem_cons.mp hp with rfl | hp
          · exact hlt p (by simp)
          · exact hlt p (by simp [hp])
    · have hred : pyMaxByCount cur (x :: t) = pyMaxByCount cur t := by
        simp [pyMaxByCount, hx]
      rw [hred]
      obtain ⟨l₁, l₂, hdec, hlt, hle⟩ := ih cur
      rcases l₁ with _ | ⟨a, l₁'⟩
      · rw [List.nil_append] at hdec
        have h1 : cur = pyMaxByCount cur t := by injection hdec
        have h2 : t = l₂ := by injection hdec
        refine ⟨[], x :: t, ?_, by simp, ?_⟩
        · rw [← h1]; rfl
        · intro p hp
          rcases List.mem_cons.mp hp with rfl | hp
          · rw [← h1]; omega
          · exact hle p (h2 ▸ hp)
      · rw [List.cons_append] at hdec
        have h1 : cur = a := by injection hdec
        have h2 : t = l₁' ++ pyMaxByCount cur t :: l₂ := by injection hdec
        refine ⟨cur :: x :: l₁', l₂,
          congrArg (fun s => cur :: x :: s) h2, ?_, hle⟩
        intro p hp
        have hcur : cur.2 < (pyMaxByCount cur t).2 := by
          have := hlt a (by simp)
          rw [← h1] at this
          exact this
        rcases List.mem_cons.mp hp with rfl | hp
        · exact hcur
        · rcases List.mem_cons.mp hp with rfl | hp
          · omega
          · exact hlt p (by simp [hp])

theorem findDayFor_none_iff (target : SpotStatus) (cs : List CheckResult) :
    findDayFor target cs = none ↔ ∀ p ∈ dayCountsFor target cs, p.2 = 0 := by
  have hiff : ((dayCountsFor target cs).all fun p => decide (p.2 = 0)) = true ↔
      ∀ p ∈ dayCountsFor target cs, p.2 = 0 := by
    simp [List.all_eq_true]
  constructor
  · intro h
    by_contra hc
    rw [← hiff] at hc
    have hne : dayCountsFor target cs ≠ [] := by
      rw [dayCountsFor_eq]; simp [weekdayNames]
    unfold findDayFor at h
    rw [if_neg hc] at h
    rcases hcs : dayCountsFor target cs with _ | ⟨p, t⟩
    · exact hne hcs
    · rw [hcs] at h
      simp at h
  · intro h
    unfold findDayFor
    rw [if_pos (hiff.mpr h)]

theorem findDayFor_some_decomp (target : SpotStatus) (cs : List CheckResult)
    (w : String) (h : findDayFor target cs = some w) :
    ∃ l₁ c l₂, dayCountsFor target cs = l₁ ++ (w, c) :: l₂ ∧
      (∀ p ∈ l₁, p.2 < c) ∧ (∀ p ∈ l₂, p.2 ≤ c) ∧
      ∀ p ∈ dayCountsFor target cs, p.2 ≤ c := by
  unfold findDayFor at h
  rcases hcs : dayCountsFor target cs with _ | ⟨p, t⟩
  · rw [hcs] at h
    split at h
    · exact absurd h (by simp)
    · exact absurd h (by simp)
  · rw [hcs] at h
    split at h
    · exact absurd h (by simp)
    · have hw : (pyMaxByCount p t).1 = w := by
        simpa using h
      obtain ⟨l₁, l₂, hdec, hlt, hle⟩ := pyMaxByCount_decomp t p
      refine ⟨l₁, (pyMaxByCount p t).2, l₂, ?_, hlt, hle, ?_⟩
      · rw [← hw]
        exact hdec
      · intro q hq
        rcases List.mem_append.mp (hdec ▸ hq) with h1 | h2
        · exact le_of_lt (hlt q h1)
        · rcases List.mem_cons.mp h2 with rfl | h3
          · exact le_rfl
          · exact hle q h3

/-- C8: the weekday buckets scanned by `_find_worst_day` / `_find_best_day`
hold, in the fixed Monday-first order, the number of `needs_attention`
(resp. `sorted`) outcomes on each weekday; the result is `None` exactly
when every bucket is zero; and a returned weekday sits at a position of
the Monday-first bucket list where its count is maximal, every earlier
weekday has a strictly smaller count (first-maximum tie-break) and no
bucket exceeds it. -/
theorem C8_day_patterns (checks : List CheckResult) :
    (dayCountsFor .needs_attention checks =
      weekdayNames.map fun n => (n, countWeekdayStatus .needs_attention n checks)) ∧
    (dayCountsFor .sorted checks =
      weekdayNames.map fun n => (n, countWeekdayStatus .sorted n checks)) ∧
    (findWorstDay checks = none ↔
      ∀ p ∈ dayCountsFor .needs_attention checks, p.2 = 0) ∧
    (findBestDay checks = none ↔
      ∀ p ∈ dayCountsFor .sorted checks, p.2 = 0) ∧
    (∀ w, findWorstDay checks = some w → ∃ l₁ c l₂,
      dayCountsFor .needs_attention checks = l₁ ++ (w, c) :: l₂ ∧
      (∀ p ∈ l₁, p.2 < c) ∧ (∀ p ∈ l₂, p.2 ≤ c) ∧
      ∀ p ∈ dayCountsFor .needs_attention checks, p.2 ≤ c) ∧
    (∀ w, findBestDay checks = some w → ∃ l₁ c l₂,
      dayCountsFor .sorted checks = l₁ ++ (w, c) :: l₂ ∧
      (∀ p ∈ l₁, p.2 < c) ∧ (∀ p ∈ l₂, p.2 ≤ c) ∧
      ∀ p ∈ dayCountsFor .sorted checks, p.2 ≤ c) :=
  ⟨dayCountsFor_eq _ _, dayCountsFor_eq _ _,
    findDayFor_none_iff _ _, findDayFor_none_iff _ _,
    fun w h => findDayFor_some_decomp _ _ w h,
    fun w h => findDayFor_some_decomp _ _ w h⟩

/-- C8, witness: on `csWeekdays` the worst day is Tuesday, and the theorem
yields its first-maximum decomposition of the bucket list. -/
theorem C8_day_patterns_witness :
    ∃ l₁ c l₂,
      dayCountsFor .needs_attention csWeekdays = l₁ ++ ("Tuesday", c) :: l₂ ∧
      (∀ p ∈ l₁, p.2 < c) ∧ (∀ p ∈ l₂, p.2 ≤ c) ∧
      ∀ p ∈ dayCountsFor .needs_attention csWeekdays, p.2 ≤ c :=
  (C8_day_patterns csWeekdays).2.2.2.2.1 "Tuesday" (by decide)

/-- C5, counterexample: in a history where 21 distinct item names each
occur exactly 3 times (the recurring threshold), the item "u" qualifies
but is absent from the retained recurring set: `_count_recurring_items`
passes the counter through `most_common(20)` before filtering, so the
qualifying set is capped at 20 entries, not uncapped as claimed. -/
theorem C5_counterexample :
    RECURRING_THRESHOLD ≤ countOf csManyItems "u" ∧
    lookupA (countRecurringItems csManyItems) "u" = none := by
  decide

/-- C5, amended: retained entries carry the true occurrence count of their
normalized name and meet the threshold 3, and the retained set is exactly
the qualifying entries among `most_common(20)`: membership is an iff, the
counter holds every occurring name with its true count, and, whenever at
most 20 distinct names occur, every name meeting the threshold is
retained with its count. The retained set is capped at 20 and the
displayed `top_recurring` list is the 5 largest by count: at most 5
entries, sorted descending, drawn from the retained set, and no
non-displayed retained entry has a larger count than any displayed one. -/
theorem C5_amended (checks : List CheckResult) (m : SpotMemory) :
    (∀ p ∈ countRecurringItems checks,
        RECURRING_THRESHOLD ≤ p.2 ∧ p.2 = countOf checks p.1) ∧
    (∀ p : String × Nat, p ∈ countRecurringItems checks ↔
        p ∈ mostCommon 20 (counterOf (allItemNames checks)) ∧
          RECURRING_THRESHOLD ≤ p.2) ∧
    (∀ s ∈ allItemNames checks,
        (s, countOf checks s) ∈ counterOf (allItemNames checks)) ∧
    ((counterOf (allItemNames checks)).length ≤ 20 →
      ∀ s ∈ allItemNames checks, RECURRING_THRESHOLD ≤ countOf checks s →
        (s, countOf checks s) ∈ countRecurringItems checks) ∧
    (countRecurringItems checks).length ≤ 20 ∧
    (topRecurring m).length ≤ 5 ∧
    (topRecurring m).Pairwise (fun p q => q.2 ≤ p.2) ∧
    (∀ p ∈ topRecurring m, p ∈ m.recurring_items) ∧
    (∀ p ∈ m.recurring_items, p ∉ topRecurring m →
      ∀ q ∈ topRecurring m, p.2 ≤ q.2) := by
  refine ⟨?_, ?_, ?_, ?_, ?_, ?_, ?_, ?_, ?_⟩
  · intro p hp
    rw [countRecurringItems, List.mem_filter, mostCommon] at hp
    obtain ⟨hmem, hth⟩ := hp
    refine ⟨by simpa using hth, ?_⟩
    have h2 : p ∈ counterOf (allItemNames checks) :=
      (sortDesc_perm _).mem_iff.mp (List.take_subset 20 _ hmem)
    rw [countOf]
    exact mem_counterOf_count _ p h2
  · intro p
    rw [countRecurringItems, List.mem_filter]
    simp
  · intro s hs
    have h := counterOf_mem_of_mem (allItemNames checks) s hs
    simpa [countOf] using h
  · intro hlen s hs hth
    have hmem : (s, countOf checks s) ∈ counterOf (allItemNames checks) := by
      have h := counterOf_mem_of_mem (allItemNames checks) s hs
      simpa [countOf] using h
    rw [countRecurringItems]
    apply List.mem_filter.mpr
    refine ⟨?_, by simpa using hth⟩
    rw [mostCommon]
    have hlen2 : (sortDesc (counterOf (allItemNames checks))).length ≤ 20 := by
      rw [(sortDesc_perm _).length_eq]
      exact hlen
    rw [List.take_of_length_le hlen2]
    exact (sortDesc_perm _).mem_iff.mpr hmem
  · rw [countRecurringItems]
    refine le_trans (List.length_filter_le _ _) ?_
    rw [mostCommon]
    exact List.length_take_le _ _
  · rw [topRecurring]
    exact List.length_take_le _ _
  · rw [topRecurring]
    exact List.Pairwise.sublist (List.take_sublist _ _) (sortDesc_pairwise _)
  · intro p hp
    rw [topRecurring] at hp
    exact (sortDesc_perm _).mem_iff.mp (List.take_subset _ _ hp)
  · intro p hp hnot q hq
    have hps : p ∈ sortDesc m.recurring_items :=
      (sortDesc_perm _).mem_iff.mpr hp
    have hsplit := List.take_append_drop 5 (sortDesc m.recurring_items)
    have hpw : ((sortDesc m.recurring_items).take 5 ++
        (sortDesc m.recurring_items).drop 5).Pairwise
          (fun x y => y.2 ≤ x.2) := by
      rw [hsplit]
      exact sortDesc_pairwise _
    have hdrop : p ∈ (sortDesc m.recurring_items).drop 5 := by
      have hps2 : p ∈ (sortDesc m.recurring_items).take 5 ++
          (sortDesc m.recurring_items).drop 5 := by
        rw [hsplit]
        exact hps
      rcases List.mem_append.mp hps2 with h1 | h1
      · exact absurd h1 hnot
      · exact h1
    exact (List.pairwise_append.mp hpw).2.2 q hq p hdrop

/-- C5, witness for the amended theorem: in `csFewItems` (fewer than 20
distinct names) the name "coffee mug", occurring three times under
different spellings, is retained with its count, as in the spec's own
example. -/
theorem C5_amended_witness :
    ("coffee mug", countOf csFewItems "coffee mug") ∈
      countRecurringItems csFewItems :=
  (C5_amended csFewItems { spot_id := 0 }).2.2.2.1 (by decide)
    "coffee mug" (by decide) (by decide)

/-- C3, counterexample: with `sorted` outcomes on days 0 and 2 and no
outcome on day 1, the code's longest streak is 2 (the gap between recorded
days does not break the run), while the claim's calendar-consecutive run
length (missing day breaks the run) is 1. -/
theorem C3_counterexample :
    longestStreak csTwoApart ≠ specClaimedLongest csTwoApart := by
  decide

/-- C3, amended: the pattern engine's longest streak is the length of the
longest run of consecutive entries with status `sorted` in the
date-ordered sequence of recorded days; a recorded non-`sorted` day breaks
the run, but a calendar gap between recorded days does not. -/
theorem C3_amended (checks : List CheckResult) :
    longestStreak checks = runsMax (dailySortedFlags checks) := by
  by_cases h : checks = []
  · subst h; rfl
  · rw [longestStreak, if_neg h, runsMax,
      lsFold_eq_runs (dailySortedFlags checks) 0 0 (Nat.le_refl 0)]
    exact Nat.zero_max _

theorem normStatus_cases (o : Option JVal) :
    (normStatus o = "sorted" ∨ normStatus o = "needs_attention") ∧
    (normStatus o = "sorted" ↔ o = some (JVal.str "sorted")) := by
  unfold normStatus
  split
  · exact ⟨Or.inl rfl, by simp⟩
  · refine ⟨Or.inr rfl, ?_⟩
    constructor
    · intro h; exact absurd h (by decide)
    · intro h
      have h2 := JVal.str.inj (Option.some.inj h)
      exact absurd h2 (by decide)
  · next h1 h2 =>
    refine ⟨Or.inr rfl, ?_⟩
    constructor
    · intro h; exact absurd h (by decide)
    · intro h
      exact absurd h h1

/-- C9, counterexample: a payload that parses as JSON but is a top-level
array (schema violation) makes `_validate_response` raise
(`AttributeError` on `data.get`) instead of returning a normalized
result. -/
theorem C9_counterexample :
    validateResponse (JVal.arr []) =
      .error "AttributeError: data has no attribute get" := rfl

/-- C9, amended: when the payload is a JSON object whose `to_sort` and
`looking_good` fields (if present) are lists and whose `notes` field (if
present) is an object, validation normalizes instead of failing: it
returns a result; any status other than the two literal strings (missing
and non-string values included) becomes `needs_attention`; and missing or
empty note fields become absent. Payloads outside these shapes (a
non-object payload, a non-iterable `to_sort`/`looking_good`, a non-object
`notes`) instead raise. -/
theorem C9_amended (kvs : List (String × JVal))
    (hts : lookupA kvs "to_sort" = none ∨
      ∃ l, lookupA kvs "to_sort" = some (JVal.arr l))
    (hlg : lookupA kvs "looking_good" = none ∨
      ∃ l, lookupA kvs "looking_good" = some (JVal.arr l))
    (hn : lookupA kvs "notes" = none ∨
      ∃ m, lookupA kvs "notes" = some (JVal.obj m)) :
    ∃ r, validateResponse (JVal.obj kvs) = .ok r ∧
      (r.status = "sorted" ∨ r.status = "needs_attention") ∧
      (r.status = "sorted" ↔ lookupA kvs "status" = some (JVal.str "sorted")) ∧
      (lookupA kvs "notes" = none →
        r.notes_main = none ∧ r.notes_pattern = none ∧
          r.notes_encouragement = none) ∧
      (∀ m, lookupA kvs "notes" = some (JVal.obj m) →
        (lookupA m "main" = none → r.notes_main = none) ∧
        (lookupA m "main" = some (JVal.str "") → r.notes_main = none) ∧
        (lookupA m "pattern" = none → r.notes_pattern = none) ∧
        (lookupA m "pattern" = some (JVal.str "") → r.notes_pattern = none) ∧
        (lookupA m "encouragement" = none → r.notes_encouragement = none) ∧
        (lookupA m "encouragement" = some (JVal.str "") →
          r.notes_encouragement = none)) := by
  obtain ⟨lts, hts2⟩ :
      ∃ l, (lookupA kvs "to_sort").getD (JVal.arr []) = JVal.arr l := by
    rcases hts with h | ⟨l, h⟩ <;> rw [h] <;> exact ⟨_, rfl⟩
  obtain ⟨llg, hlg2⟩ :
      ∃ l, (lookupA kvs "looking_good").getD (JVal.arr []) = JVal.arr l := by
    rcases hlg with h | ⟨l, h⟩ <;> rw [h] <;> exact ⟨_, rfl⟩
  obtain ⟨mz, hn2, hnlink⟩ :
      ∃ m, (lookupA kvs "notes").getD (JVal.obj []) = JVal.obj m ∧
        ((lookupA kvs "notes" = none ∧ m = []) ∨
          lookupA kvs "notes" = some (JVal.obj m)) := by
    rcases hn with h | ⟨m, h⟩
    · exact ⟨[], by rw [h]; rfl, Or.inl ⟨h, rfl⟩⟩
    · exact ⟨m, by rw [h]; rfl, Or.inr h⟩
  have hval : validateResponse (JVal.obj kvs) = .ok
      { status := normStatus (lookupA kvs "status")
        to_sort := lts.filterMap validateToSortEntry
        looking_good := llg.filterMap validateLookingGoodEntry
        notes_main := pyOrNone (lookupA mz "main")
        notes_pattern := pyOrNone (lookupA mz "pattern")
        notes_encouragement := pyOrNone (lookupA mz "encouragement") } := by
    unfold validateResponse
    dsimp only
    rw [hts2, hlg2, hn2]
    rfl
  refine ⟨_, hval, (normStatus_cases _).1, (normStatus_cases _).2, ?_, ?_⟩
  · intro h
    rcases hnlink with ⟨_, rfl⟩ | hsome
    · exact ⟨rfl, rfl, rfl⟩
    · rw [h] at hsome
      cases hsome
  · intro m hm
    rcases hnlink with ⟨hnone, _⟩ | hsome
    · rw [hm] at hnone
      cases hnone
    · rw [hm] at hsome
      have := JVal.obj.inj (Option.some.inj hsome)
      subst this
      refine ⟨?_, ?_, ?_, ?_, ?_, ?_⟩ <;> intro h <;> rw [h] <;> rfl

/-- C9, witness for the amended theorem at the concrete malformed payload
`payloadC9` (status is a number, `main` note is empty). -/
theorem C9_amended_witness :
    ∃ r, validateResponse (JVal.obj payloadC9) = .ok r ∧
      (r.status = "sorted" ∨ r.status = "needs_attention") ∧
      (r.status = "sorted" ↔
        lookupA payloadC9 "status" = some (JVal.str "sorted")) ∧
      (lookupA payloadC9 "notes" = none →
        r.notes_main = none ∧ r.notes_pattern = none ∧
          r.notes_encouragement = none) ∧
      (∀ m, lookupA payloadC9 "notes" = some (JVal.obj m) →
        (lookupA m "main" = none → r.notes_main = none) ∧
        (lookupA m "main" = some (JVal.str "") → r.notes_main = none) ∧
        (lookupA m "pattern" = none → r.notes_pattern = none) ∧
        (lookupA m "pattern" = some (JVal.str "") → r.notes_pattern = none) ∧
        (lookupA m "encouragement" = none → r.notes_encouragement = none) ∧
        (lookupA m "encouragement" = some (JVal.str "") →
          r.notes_encouragement = none)) :=
  C9_amended payloadC9 (Or.inr ⟨_, rfl⟩) (Or.inr ⟨_, rfl⟩) (Or.inr ⟨_, rfl⟩)

end TwinSync
